import Mathlib

/-
Shallow embedding of the smart asset tracker (src/main.py).

The script defines a class SmartAssetTracker with four methods:
  fetch_asset_data      (the Fetcher)
  calculate_performance (the Analyzer)
  display_performance   (the Reporter)
  track_assets          (the driver loop)

Modelling conventions:
  - Python float prices are modelled as exact rationals; the code performs a
    single arithmetic expression per record, and every claim about it is about
    which expression is computed, not about rounding.
  - A Python dict is modelled as an association list in insertion order;
    assignment d[k] = v replaces the value in place when k is present and
    appends otherwise (dictInsert below), exactly as CPython dicts behave.
  - Each logging call is modelled as a structured LogEvent carrying the data
    that is interpolated into the message, with its logging level.
-/

/-- Logging levels used by the script via the logging module. -/
inductive LogLevel
  | info
  | warning
  | error
  | critical
deriving DecidableEq

/-- One row of the fetched history, as used by the Analyzer: the dict
hist.iloc[-1].to_dict() is only ever read through stats.get with keys
Open and Close, so only those two fields are modelled; get returns
none when the key is absent. -/
structure DailyRecord where
  Open : Option ℚ
  Close : Option ℚ
deriving DecidableEq

/-- The per-symbol value stored into performance_summary: the dict literal
with keys Open Price, Close Price and Change (%). -/
structure PerformanceResult where
  openPrice : ℚ
  closePrice : ℚ
  changePct : ℚ
deriving DecidableEq

/-- The logging calls of src/main.py, one constructor per call site, in
source order. symbolBlock stands for the five logging.info lines the
Reporter emits per symbol (symbol name, open, close, change, separator). -/
inductive LogEvent
  | fetchingAssets
  | noDataFetched (symbol : String)
  | errorFetching (symbol : String)
  | noDataToCalculate
  | calculatingAsset
  | invalidData (symbol : String)
  | errorCalculating (symbol : String)
  | noPerformanceData
  | displayingSummary
  | symbolBlock (symbol : String) (openPrice closePrice changePct : ℚ)
  | startingTracking
  | waitingNext
  | trackingStopped
  | unexpectedError
deriving DecidableEq

/-- The logging level of each call site in src/main.py. -/
def LogEvent.level : LogEvent → LogLevel
  | .fetchingAssets => .info
  | .noDataFetched _ => .warning
  | .errorFetching _ => .error
  | .noDataToCalculate => .warning
  | .calculatingAsset => .info
  | .invalidData _ => .warning
  | .errorCalculating _ => .error
  | .noPerformanceData => .info
  | .displayingSummary => .info
  | .symbolBlock _ _ _ _ => .info
  | .startingTracking => .info
  | .waitingNext => .info
  | .trackingStopped => .info
  | .unexpectedError => .error

/-- Python dict assignment d[k] = v on an insertion-ordered association list:
replace in place when the key is present, append otherwise. -/
def dictInsert {α : Type} : List (String × α) → String → α → List (String × α)
  | [], k, v => [(k, v)]
  | p :: d, k, v => if p.1 = k then (k, v) :: d else p :: dictInsert d k v

/-- The body of the Analyzer loop for one entry: open_price = stats.get(Open),
close_price = stats.get(Close); the guard is the Python truthiness test
open_price and close_price, which requires both fields present and both
nonzero; when it holds the result dict is built with
change = ((close_price - open_price) / open_price) * 100. -/
def calculate_entry (stats : DailyRecord) : Option PerformanceResult :=
  match stats.Open, stats.Close with
  | some open_price, some close_price =>
      if open_price ≠ 0 ∧ close_price ≠ 0 then
        some { openPrice := open_price, closePrice := close_price,
               changePct := ((close_price - open_price) / open_price) * 100 }
      else none
  | _, _ => none

/-- The performance_summary dict built by the Analyzer loop: iterate over the
entries of data in order, and for each entry passing the guard execute
performance_summary[symbol] = result. -/
def performance_summary (data : List (String × DailyRecord)) :
    List (String × PerformanceResult) :=
  data.foldl (fun acc p =>
    match calculate_entry p.2 with
    | some result => dictInsert acc p.1 result
    | none => acc) []

/-- The warnings the Analyzer loop logs, in order: one invalidData warning for
each entry failing the guard. Entries passing the guard log nothing. -/
def analysis_warnings (data : List (String × DailyRecord)) : List LogEvent :=
  data.filterMap fun p =>
    match calculate_entry p.2 with
    | some _ => none
    | none => some (LogEvent.invalidData p.1)

/-- display_performance (the Reporter): given performance_summary, either log
the single no-performance-data notice when it is empty, or log the header
followed by one block per symbol in order. -/
def display_performance (summary : List (String × PerformanceResult)) :
    List LogEvent :=
  if summary.isEmpty then [LogEvent.noPerformanceData]
  else LogEvent.displayingSummary ::
    summary.map fun p =>
      LogEvent.symbolBlock p.1 p.2.openPrice p.2.closePrice p.2.changePct

/-- calculate_performance (the Analyzer), as its emitted log trace: when data
is empty it logs the no-data warning and returns at once, never invoking the
Reporter; otherwise it logs the header, the per-entry warnings of the loop,
and then the Reporter trace on the summary it built. -/
def calculate_performance (data : List (String × DailyRecord)) : List LogEvent :=
  if data.isEmpty then [LogEvent.noDataToCalculate]
  else LogEvent.calculatingAsset ::
    (analysis_warnings data ++ display_performance (performance_summary data))

/-- The outcome of one provider interaction yf.Ticker(symbol).history(...)
inside the Fetcher loop: a non-empty history whose last row is rec, an empty
history, or a raised exception. -/
inductive FetchOutcome
  | ok (rec : DailyRecord)
  | empty
  | err

/-- One iteration of the Fetcher loop body for a symbol: on a non-empty
history execute data[symbol] = hist.iloc[-1].to_dict(); on an empty history
or an exception the dict is left unchanged (only a log line is emitted). -/
def fetch_step (provider : String → FetchOutcome)
    (data : List (String × DailyRecord)) (symbol : String) :
    List (String × DailyRecord) :=
  match provider symbol with
  | .ok rec => dictInsert data symbol rec
  | .empty => data
  | .err => data

/-- fetch_asset_data (the Fetcher), as the dict it returns: starting from the
empty dict, run the loop body over the configured symbols in order. The
provider argument stands for the external market-data provider. -/
def fetch_asset_data (provider : String → FetchOutcome)
    (symbols : List String) : List (String × DailyRecord) :=
  symbols.foldl (fetch_step provider) []

/-- fetch_asset_data, as the log trace it emits: the fetching header, then per
symbol a warning on an empty history, an error log on an exception, and
nothing on success. -/
def fetch_log (provider : String → FetchOutcome) (symbols : List String) :
    List LogEvent :=
  LogEvent.fetchingAssets :: symbols.filterMap fun symbol =>
    match provider symbol with
    | .ok _ => none
    | .empty => some (LogEvent.noDataFetched symbol)
    | .err => some (LogEvent.errorFetching symbol)

/-- What happens on one pass through the body of the while-True loop in
track_assets: either the tick runs to completion against the given provider
state and the loop continues, or a KeyboardInterrupt arrives, or some other
Exception escapes the tick. -/
inductive TickOutcome
  | tick (provider : String → FetchOutcome)
  | interrupt
  | fail

/-- The state of the driver loop after consuming a list of tick outcomes:
still running, stopped via the KeyboardInterrupt handler, or stopped via the
generic Exception handler. -/
inductive StopState
  | running
  | stoppedByUser
  | stoppedByError
deriving DecidableEq

/-- The driver loop control flow: the while-True loop runs tick after tick
until a KeyboardInterrupt is caught (stoppedByUser) or another Exception is
caught (stoppedByError); both handlers are terminal. -/
def run_loop : List TickOutcome → StopState
  | [] => .running
  | .tick _ :: rest => run_loop rest
  | .interrupt :: _ => .stoppedByUser
  | .fail :: _ => .stoppedByError

/-- The number of complete fetch-analyze-report ticks the loop executes: it
stops counting at the first abnormal outcome, after which no further tick
runs. -/
def ticks_run : List TickOutcome → ℕ
  | [] => 0
  | .tick _ :: rest => ticks_run rest + 1
  | .interrupt :: _ => 0
  | .fail :: _ => 0

/-- The log trace of the while-True loop body of track_assets: each complete
tick contributes the Fetcher trace, the Analyzer trace on the fetched dict,
and the waiting notice before the sleep; a KeyboardInterrupt is caught and
logs the tracking-stopped notice; another Exception is caught and logs the
unexpected-error line. Both handlers end the trace. -/
def loop_trace (symbols : List String) : List TickOutcome → List LogEvent
  | [] => []
  | .tick provider :: rest =>
      fetch_log provider symbols
        ++ calculate_performance (fetch_asset_data provider symbols)
        ++ [LogEvent.waitingNext] ++ loop_trace symbols rest
  | .interrupt :: _ => [LogEvent.trackingStopped]
  | .fail :: _ => [LogEvent.unexpectedError]

/-- track_assets, as its full log trace: the starting notice followed by the
loop trace. -/
def track_assets (symbols : List String) (outcomes : List TickOutcome) :
    List LogEvent :=
  LogEvent.startingTracking :: loop_trace symbols outcomes

/-- The process exit status as a function of the loop state: none while the
loop is still running; in both stopped states the except handler swallows the
exception, track_assets returns normally, the module-level code after
tracker.track_assets() ends, and the interpreter exits with status 0. -/
def exit_code : StopState → Option ℕ
  | .running => none
  | .stoppedByUser => some 0
  | .stoppedByError => some 0

/-- The tracker object: its only attribute is the symbol list set in init. -/
structure SmartAssetTracker where
  symbols : List String
deriving DecidableEq

/-- calculate_performance as a state-passing procedure: the method receives
self and data, builds the fresh performance_summary local, logs, and calls
self.display_performance; no statement of the method or of the Reporter
assigns to self, to data, or to any record inside data, so the procedure
returns self and data alongside the emitted trace. -/
def calculate_performance_proc (self : SmartAssetTracker)
    (data : List (String × DailyRecord)) :
    SmartAssetTracker × List (String × DailyRecord) × List LogEvent :=
  (self, data, calculate_performance data)

/-- display_performance as a state-passing procedure: the method only reads
its argument and logs; it assigns to nothing. -/
def display_performance_proc (self : SmartAssetTracker)
    (summary : List (String × PerformanceResult)) :
    SmartAssetTracker × List (String × PerformanceResult) × List LogEvent :=
  (self, summary, display_performance summary)

/-! ### Association-list lemmas for the dict model -/

theorem dictInsert_of_not_mem {α : Type} {d : List (String × α)} {k : String}
    (v : α) (h : k ∉ d.map Prod.fst) : dictInsert d k v = d ++ [(k, v)] := by
  induction d with
  | nil => rfl
  | cons p rest ih =>
      simp only [List.map_cons, List.mem_cons, not_or] at h
      have hpk : p.1 ≠ k := fun hc => h.1 hc.symm
      simp only [dictInsert, if_neg hpk, List.cons_append, List.cons.injEq,
        true_and]
      exact ih h.2

theorem mem_keys_dictInsert {α : Type} {d : List (String × α)} {k t : String}
    {v : α} :
    t ∈ (dictInsert d k v).map Prod.fst ↔ t = k ∨ t ∈ d.map Prod.fst := by
  induction d with
  | nil => simp [dictInsert]
  | cons p rest ih =>
      by_cases hpk : p.1 = k
      · simp [dictInsert, hpk]
      · simp only [dictInsert, if_neg hpk, List.map_cons, List.mem_cons, ih]
        tauto

theorem nodup_keys_dictInsert {α : Type} {d : List (String × α)} {k : String}
    {v : α} (h : (d.map Prod.fst).Nodup) :
    ((dictInsert d k v).map Prod.fst).Nodup := by
  induction d with
  | nil => simp [dictInsert]
  | cons p rest ih =>
      simp only [List.map_cons, List.nodup_cons] at h
      by_cases hpk : p.1 = k
      · simp only [dictInsert, if_pos hpk, List.map_cons, List.nodup_cons]
        exact ⟨hpk ▸ h.1, h.2⟩
      · simp only [dictInsert, if_neg hpk, List.map_cons, List.nodup_cons,
          mem_keys_dictInsert]
        exact ⟨fun hc => hc.elim (fun he => hpk he) (fun he => h.1 he), ih h.2⟩

theorem mem_dictInsert {α : Type} {d : List (String × α)} {k : String}
    {v : α} {x : String × α} (h : x ∈ dictInsert d k v) :
    x = (k, v) ∨ x ∈ d := by
  induction d with
  | nil => simpa [dictInsert] using h
  | cons p rest ih =>
      by_cases hpk : p.1 = k
      · simp only [dictInsert, if_pos hpk, List.mem_cons] at h
        rcases h with h | h
        · exact Or.inl h
        · exact Or.inr (List.mem_cons_of_mem _ h)
      · simp only [dictInsert, if_neg hpk, List.mem_cons] at h
        rcases h with h | h
        · exact Or.inr (h ▸ List.mem_cons_self _ _)
        · rcases ih h with h | h
          · exact Or.inl h
          · exact Or.inr (List.mem_cons_of_mem _ h)

theorem lookup_dictInsert {α : Type} (d : List (String × α)) (k t : String)
    (v : α) :
    List.lookup t (dictInsert d k v) =
      if t = k then some v else List.lookup t d := by
  induction d with
  | nil =>
      by_cases htk : t = k
      · simp [dictInsert, List.lookup, htk]
      · simp [dictInsert, List.lookup, htk, beq_false_of_ne htk]
  | cons p rest ih =>
      obtain ⟨a, b⟩ := p
      by_cases hak : a = k
      · subst hak
        by_cases hta : t = a
        · subst hta
          simp [dictInsert, List.lookup]
        · simp [dictInsert, List.lookup, hta, beq_false_of_ne hta]
      · by_cases hta : t = a
        · subst hta
          have htk : t ≠ k := hak
          simp [dictInsert, hak, List.lookup, htk]
        · simp [dictInsert, hak, List.lookup, beq_false_of_ne hta, ih]

/-- Entries with a given key are unique in a list whose keys have no
duplicates. -/
theorem eq_of_mem_of_nodup_keys {α : Type} {l : List (String × α)}
    {s : String} {a b : α} (hnd : (l.map Prod.fst).Nodup)
    (ha : (s, a) ∈ l) (hb : (s, b) ∈ l) : a = b := by
  induction l with
  | nil => cases ha
  | cons p rest ih =>
      simp only [List.map_cons, List.nodup_cons] at hnd
      rcases List.mem_cons.mp ha with ha' | ha' <;>
        rcases List.mem_cons.mp hb with hb' | hb'
      · exact congrArg Prod.snd (ha'.trans hb'.symm)
      · exfalso
        have hs : s ∈ rest.map Prod.fst := List.mem_map_of_mem Prod.fst hb'
        rw [← ha'] at hnd
        exact hnd.1 hs
      · exfalso
        have hs : s ∈ rest.map Prod.fst := List.mem_map_of_mem Prod.fst ha'
        rw [← hb'] at hnd
        exact hnd.1 hs
      · exact ih hnd.2 ha' hb'

/-! ### Characterization of the Analyzer summary -/

theorem summary_foldl_eq (data : List (String × DailyRecord))
    (acc : List (String × PerformanceResult))
    (hdisj : ∀ p ∈ data, p.1 ∉ acc.map Prod.fst)
    (hnd : (data.map Prod.fst).Nodup) :
    data.foldl (fun acc p =>
      match calculate_entry p.2 with
      | some result => dictInsert acc p.1 result
      | none => acc) acc
    = acc ++ data.filterMap fun p =>
        (calculate_entry p.2).map fun result => (p.1, result) := by
  induction data generalizing acc with
  | nil => simp
  | cons p rest ih =>
      simp only [List.map_cons, List.nodup_cons] at hnd
      have hp := hdisj p (List.mem_cons_self p rest)
      cases he : calculate_entry p.2 with
      | none =>
          simp only [List.foldl_cons, he, List.filterMap_cons]
          exact ih acc (fun q hq => hdisj q (List.mem_cons_of_mem _ hq)) hnd.2
      | some result =>
          simp only [List.foldl_cons, he, List.filterMap_cons, Option.map_some']
          rw [dictInsert_of_not_mem result hp]
          rw [ih (acc ++ [(p.1, result)]) ?_ hnd.2]
          · simp
          · intro q hq
            have hq1 : q.1 ∈ rest.map Prod.fst := List.mem_map_of_mem _ hq
            have hqp : q.1 ≠ p.1 := fun hc => hnd.1 (hc ▸ hq1)
            simp only [List.map_append, List.mem_append, List.map_cons,
              List.map_nil, List.mem_singleton, not_or]
            exact ⟨hdisj q (List.mem_cons_of_mem _ hq), hqp⟩

theorem performance_summary_eq_filterMap (data : List (String × DailyRecord))
    (hnd : (data.map Prod.fst).Nodup) :
    performance_summary data
    = data.filterMap fun p =>
        (calculate_entry p.2).map fun result => (p.1, result) := by
  have h := summary_foldl_eq data [] (by simp) hnd
  simpa [performance_summary] using h

theorem summary_foldl_keys_subset (data : List (String × DailyRecord))
    (acc : List (String × PerformanceResult)) (t : String)
    (h : t ∈ ((data.foldl (fun acc p =>
      match calculate_entry p.2 with
      | some result => dictInsert acc p.1 result
      | none => acc) acc).map Prod.fst)) :
    t ∈ acc.map Prod.fst ∨ t ∈ data.map Prod.fst := by
  induction data generalizing acc with
  | nil => exact Or.inl h
  | cons p rest ih =>
      simp only [List.foldl_cons] at h
      rcases ih _ h with h' | h'
      · cases he : calculate_entry p.2 with
        | none =>
            rw [he] at h'
            exact Or.inl h'
        | some result =>
            rw [he] at h'
            rcases mem_keys_dictInsert.mp h' with h'' | h''
            · exact Or.inr (by simp [h''])
            · exact Or.inl h''
      · exact Or.inr (List.mem_cons_of_mem _ h')

/-! ### Lemmas about the Fetcher fold -/

theorem fetch_foldl_keys (provider : String → FetchOutcome)
    (symbols : List String) (acc : List (String × DailyRecord)) (t : String)
    (h : t ∈ ((symbols.foldl (fetch_step provider) acc).map Prod.fst)) :
    t ∈ acc.map Prod.fst ∨ t ∈ symbols := by
  induction symbols generalizing acc with
  | nil => exact Or.inl h
  | cons a rest ih =>
      simp only [List.foldl_cons] at h
      rcases ih _ h with h' | h'
      · cases hpa : provider a with
        | ok rec =>
            simp only [fetch_step, hpa] at h'
            rcases mem_keys_dictInsert.mp h' with h'' | h''
            · exact Or.inr (by simp [h''])
            · exact Or.inl h''
        | empty =>
            simp only [fetch_step, hpa] at h'
            exact Or.inl h'
        | err =>
            simp only [fetch_step, hpa] at h'
            exact Or.inl h'
      · exact Or.inr (List.mem_cons_of_mem _ h')

theorem fetch_foldl_nodup (provider : String → FetchOutcome)
    (symbols : List String) (acc : List (String × DailyRecord))
    (h : (acc.map Prod.fst).Nodup) :
    ((symbols.foldl (fetch_step provider) acc).map Prod.fst).Nodup := by
  induction symbols generalizing acc with
  | nil => exact h
  | cons a rest ih =>
      simp only [List.foldl_cons]
      apply ih
      cases hpa : provider a with
      | ok rec => simpa only [fetch_step, hpa] using nodup_keys_dictInsert h
      | empty => simpa only [fetch_step, hpa] using h
      | err => simpa only [fetch_step, hpa] using h

theorem fetch_foldl_not_mem (provider : String → FetchOutcome)
    (symbols : List String) (acc : List (String × DailyRecord)) (s : String)
    (hs : ∀ rec, provider s ≠ .ok rec) (hacc : s ∉ acc.map Prod.fst) :
    s ∉ ((symbols.foldl (fetch_step provider) acc).map Prod.fst) := by
  induction symbols generalizing acc with
  | nil => exact hacc
  | cons a rest ih =>
      simp only [List.foldl_cons]
      apply ih
      cases hpa : provider a with
      | ok rec =>
          simp only [fetch_step, hpa]
          intro hmem
          rcases mem_keys_dictInsert.mp hmem with h | h
          · exact hs rec (by rw [h]; exact hpa)
          · exact hacc h
      | empty => simpa only [fetch_step, hpa] using hacc
      | err => simpa only [fetch_step, hpa] using hacc

theorem fetch_foldl_mem (provider : String → FetchOutcome)
    (symbols : List String) (acc : List (String × DailyRecord))
    (t : String) (r : DailyRecord)
    (h : (t, r) ∈ symbols.foldl (fetch_step provider) acc) :
    (t, r) ∈ acc ∨ provider t = .ok r := by
  induction symbols generalizing acc with
  | nil => exact Or.inl h
  | cons a rest ih =>
      simp only [List.foldl_cons] at h
      rcases ih _ h with h' | h'
      · cases hpa : provider a with
        | ok rec =>
            simp only [fetch_step, hpa] at h'
            rcases mem_dictInsert h' with h'' | h''
            · have ht : t = a := congrArg Prod.fst h''
              have hr : r = rec := congrArg Prod.snd h''
              exact Or.inr (by rw [ht, hr]; exact hpa)
            · exact Or.inl h''
        | empty =>
            simp only [fetch_step, hpa] at h'
            exact Or.inl h'
        | err =>
            simp only [fetch_step, hpa] at h'
            exact Or.inl h'
      · exact Or.inr h'

theorem fetch_foldl_lookup_congr (provider provider2 : String → FetchOutcome)
    (s : String) (hpp : ∀ t, t ≠ s → provider2 t = provider t)
    (symbols : List String) :
    ∀ acc acc2 : List (String × DailyRecord),
    (∀ t, t ≠ s → List.lookup t acc2 = List.lookup t acc) →
    ∀ t, t ≠ s →
      List.lookup t (symbols.foldl (fetch_step provider2) acc2)
        = List.lookup t (symbols.foldl (fetch_step provider) acc) := by
  induction symbols with
  | nil => exact fun acc acc2 hinv t ht => hinv t ht
  | cons a rest ih =>
      intro acc acc2 hinv t ht
      simp only [List.foldl_cons]
      refine ih _ _ ?_ t ht
      intro u hu
      by_cases has : a = s
      · subst has
        have h2 : List.lookup u (fetch_step provider2 acc2 a) =
            List.lookup u acc2 := by
          cases hpa : provider2 a with
          | ok rec => simp [fetch_step, hpa, lookup_dictInsert, hu]
          | empty => simp [fetch_step, hpa]
          | err => simp [fetch_step, hpa]
        have h1 : List.lookup u (fetch_step provider acc a) =
            List.lookup u acc := by
          cases hpa : provider a with
          | ok rec => simp [fetch_step, hpa, lookup_dictInsert, hu]
          | empty => simp [fetch_step, hpa]
          | err => simp [fetch_step, hpa]
        rw [h2, h1]
        exact hinv u hu
      · have hpa2 : provider2 a = provider a := hpp a has
        cases hpa : provider a with
        | ok rec =>
            simp only [fetch_step, hpa2, hpa, lookup_dictInsert]
            by_cases hua : u = a
            · simp [hua]
            · simp [hua, hinv u hu]
        | empty =>
            simp only [fetch_step, hpa2, hpa]
            exact hinv u hu
        | err =>
            simp only [fetch_step, hpa2, hpa]
            exact hinv u hu

/-! ### Lemmas about the driver loop -/

theorem run_loop_append_ticks (pre post : List TickOutcome)
    (h : ∀ o ∈ pre, ∃ q, o = TickOutcome.tick q) :
    run_loop (pre ++ post) = run_loop post := by
  induction pre with
  | nil => rfl
  | cons o rest ih =>
      obtain ⟨q, hq⟩ := h o (List.mem_cons_self o rest)
      subst hq
      simp only [List.cons_append, run_loop]
      exact ih (fun o ho => h o (List.mem_cons_of_mem _ ho))

theorem ticks_run_append_ticks (pre post : List TickOutcome)
    (h : ∀ o ∈ pre, ∃ q, o = TickOutcome.tick q) :
    ticks_run (pre ++ post) = pre.length + ticks_run post := by
  induction pre with
  | nil => simp [ticks_run]
  | cons o rest ih =>
      obtain ⟨q, hq⟩ := h o (List.mem_cons_self o rest)
      subst hq
      simp only [List.cons_append, ticks_run, List.length_cons, List.append_eq]
      rw [ih (fun o ho => h o (List.mem_cons_of_mem _ ho))]
      omega

theorem loop_trace_append_ticks (symbols : List String)
    (pre post : List TickOutcome)
    (h : ∀ o ∈ pre, ∃ q, o = TickOutcome.tick q) :
    ∃ es, loop_trace symbols (pre ++ post)
      = es ++ loop_trace symbols post := by
  induction pre with
  | nil => exact ⟨[], rfl⟩
  | cons o rest ih =>
      obtain ⟨q, hq⟩ := h o (List.mem_cons_self o rest)
      subst hq
      obtain ⟨es, hes⟩ := ih (fun o ho => h o (List.mem_cons_of_mem _ ho))
      refine ⟨fetch_log q symbols
        ++ calculate_performance (fetch_asset_data q symbols)
        ++ [LogEvent.waitingNext] ++ es, ?_⟩
      simp only [List.cons_append, loop_trace, List.append_eq, List.append_assoc, hes]

/-! ### Characterization of the per-entry Analyzer guard -/

theorem calculate_entry_eq_some (stats : DailyRecord) (r : PerformanceResult) :
    calculate_entry stats = some r ↔
    ∃ o c, stats.Open = some o ∧ stats.Close = some c ∧ o ≠ 0 ∧ c ≠ 0 ∧
      r = ⟨o, c, ((c - o) / o) * 100⟩ := by
  constructor
  · intro h
    cases ho : stats.Open with
    | none => simp [calculate_entry, ho] at h
    | some o =>
        cases hc : stats.Close with
        | none => simp [calculate_entry, ho, hc] at h
        | some c =>
            simp only [calculate_entry, ho, hc] at h
            by_cases h0 : o ≠ 0 ∧ c ≠ 0
            · rw [if_pos h0] at h
              exact ⟨o, c, rfl, rfl, h0.1, h0.2, (Option.some.inj h).symm⟩
            · rw [if_neg h0] at h
              cases h
  · rintro ⟨o, c, ho, hc, ho0, hc0, hr⟩
    subst hr
    simp [calculate_entry, ho, hc, ho0, hc0]

theorem calculate_entry_eq_none (stats : DailyRecord)
    (hbad : stats.Open = none ∨ stats.Open = some 0 ∨
            stats.Close = none ∨ stats.Close = some 0) :
    calculate_entry stats = none := by
  rcases hbad with h | h | h | h
  · cases hc : stats.Close <;> simp [calculate_entry, h, hc]
  · cases hc : stats.Close <;> simp [calculate_entry, h, hc]
  · cases ho : stats.Open <;> simp [calculate_entry, h, ho]
  · cases ho : stats.Open <;> simp [calculate_entry, h, ho]

/-! ### Claim theorems -/

/-- C1: for every fetched record whose Open and Close fields are present with
open nonzero, any performance result the Analyzer produces for that symbol has
changePercent exactly equal to ((close - open) / open) * 100, with the open
and close in the result equal to the input fields. The Nodup hypothesis
states that data is a dict (a Python dict has one entry per key). -/
theorem c1_change_percent_formula (data : List (String × DailyRecord))
    (s : String) (stats : DailyRecord) (o c : ℚ) (r : PerformanceResult)
    (hnd : (data.map Prod.fst).Nodup)
    (hmem : (s, stats) ∈ data)
    (ho : stats.Open = some o) (ho0 : o ≠ 0)
    (hc : stats.Close = some c)
    (hr : (s, r) ∈ performance_summary data) :
    r.openPrice = o ∧ r.closePrice = c ∧
      r.changePct = ((c - o) / o) * 100 := by
  rw [performance_summary_eq_filterMap data hnd] at hr
  rcases List.mem_filterMap.mp hr with ⟨⟨a, b⟩, hp, hpe⟩
  cases he : calculate_entry b with
  | none => rw [he] at hpe; cases hpe
  | some result =>
      rw [he] at hpe
      simp only [Option.map_some', Option.some.injEq, Prod.mk.injEq] at hpe
      obtain ⟨has, hres⟩ := hpe
      have hb : b = stats := eq_of_mem_of_nodup_keys hnd (has ▸ hp) hmem
      rcases (calculate_entry_eq_some b result).mp he with
        ⟨o2, c2, ho2, hc2, _, _, hrr⟩
      rw [hb] at ho2 hc2
      have hoo : o2 = o := Option.some.inj (ho2.symm.trans ho)
      have hcc : c2 = c := Option.some.inj (hc2.symm.trans hc)
      rw [← hres, hrr, hoo, hcc]
      exact ⟨rfl, rfl, rfl⟩

/-- Witness for C1 at the Scenario 1 input, a dict mapping AAPL to the record
with open 150 and close 153. -/
theorem c1_change_percent_formula_witness :
    (PerformanceResult.mk 150 153 (((153 : ℚ) - 150) / 150 * 100)).openPrice
        = 150 ∧
    (PerformanceResult.mk 150 153 (((153 : ℚ) - 150) / 150 * 100)).closePrice
        = 153 ∧
    (PerformanceResult.mk 150 153 (((153 : ℚ) - 150) / 150 * 100)).changePct
        = (((153 : ℚ) - 150) / 150) * 100 :=
  c1_change_percent_formula
    [("AAPL", DailyRecord.mk (some 150) (some 153))] "AAPL"
    (DailyRecord.mk (some 150) (some 153)) 150 153
    (PerformanceResult.mk 150 153 (((153 : ℚ) - 150) / 150 * 100))
    (by simp) (by simp) rfl (by norm_num) rfl
    (by simp [performance_summary, calculate_entry, dictInsert])

/-- C2 counterexample: the record mapped to by symbol X has both Open and
Close present and Open nonzero, yet the Analyzer produces no result at all
for X, because the guard also requires Close to be truthy and here Close
is zero. -/
theorem c2_results_cex :
    (DailyRecord.mk (some 100) (some 0)).Open = some 100 ∧
    (100 : ℚ) ≠ 0 ∧
    (DailyRecord.mk (some 100) (some 0)).Close = some 0 ∧
    performance_summary [("X", DailyRecord.mk (some 100) (some 0))] = [] := by
  refine ⟨rfl, by norm_num, rfl, ?_⟩
  simp [performance_summary, calculate_entry]

/-- C2 amended: the Analyzer produces a result for exactly those symbols of
the fetched dict whose record has both Open and Close present and both
nonzero (the guard is the truthiness of both fields, not of Open alone). -/
theorem c2_results_iff (data : List (String × DailyRecord)) (s : String)
    (hnd : (data.map Prod.fst).Nodup) :
    (∃ r, (s, r) ∈ performance_summary data) ↔
    ∃ stats o c, (s, stats) ∈ data ∧ stats.Open = some o ∧ o ≠ 0 ∧
      stats.Close = some c ∧ c ≠ 0 := by
  rw [performance_summary_eq_filterMap data hnd]
  constructor
  · rintro ⟨r, hr⟩
    rcases List.mem_filterMap.mp hr with ⟨⟨a, b⟩, hp, hpe⟩
    cases he : calculate_entry b with
    | none => rw [he] at hpe; cases hpe
    | some result =>
        rw [he] at hpe
        simp only [Option.map_some', Option.some.injEq, Prod.mk.injEq] at hpe
        obtain ⟨has, hres⟩ := hpe
        rcases (calculate_entry_eq_some b result).mp he with
          ⟨o, c, ho, hc, ho0, hc0, hrr⟩
        exact ⟨b, o, c, has ▸ hp, ho, ho0, hc, hc0⟩
  · rintro ⟨stats, o, c, hmem, ho, ho0, hc, hc0⟩
    refine ⟨⟨o, c, ((c - o) / o) * 100⟩, List.mem_filterMap.mpr
      ⟨(s, stats), hmem, ?_⟩⟩
    have he : calculate_entry stats
        = some ⟨o, c, ((c - o) / o) * 100⟩ :=
      (calculate_entry_eq_some stats _).mpr ⟨o, c, ho, hc, ho0, hc0, rfl⟩
    rw [he]
    rfl

/-- Witness for the amended C2 at the Scenario 1 input. -/
theorem c2_results_iff_witness :
    (∃ r, ("AAPL", r) ∈
      performance_summary [("AAPL", DailyRecord.mk (some 150) (some 153))]) ↔
    ∃ stats o c,
      ("AAPL", stats) ∈ [("AAPL", DailyRecord.mk (some 150) (some 153))] ∧
      stats.Open = some o ∧ o ≠ 0 ∧ stats.Close = some c ∧ c ≠ 0 :=
  c2_results_iff [("AAPL", DailyRecord.mk (some 150) (some 153))] "AAPL"
    (by simp)

/-- C3: a per-symbol fetch failure is fully isolated. If the provider raises
or returns an empty history for symbol s, then s is absent from the returned
dict; a warning is logged for an empty result and an error for an exception;
the batch is not aborted and every other symbol is unaffected (any provider
agreeing with this one away from s yields the same entry for every other
symbol); and every entry of the returned dict comes from a symbol for which
the provider returned non-empty data. -/
theorem c3_fetch_failure_isolated (provider : String → FetchOutcome)
    (symbols : List String) (s : String)
    (hfail : provider s = FetchOutcome.empty ∨ provider s = FetchOutcome.err) :
    s ∉ (fetch_asset_data provider symbols).map Prod.fst ∧
    (provider s = FetchOutcome.empty → s ∈ symbols →
      LogEvent.noDataFetched s ∈ fetch_log provider symbols) ∧
    (provider s = FetchOutcome.err → s ∈ symbols →
      LogEvent.errorFetching s ∈ fetch_log provider symbols) ∧
    (∀ provider2 : String → FetchOutcome,
      (∀ t, t ≠ s → provider2 t = provider t) →
      ∀ t, t ≠ s →
        List.lookup t (fetch_asset_data provider2 symbols)
          = List.lookup t (fetch_asset_data provider symbols)) ∧
    (∀ t r, (t, r) ∈ fetch_asset_data provider symbols →
      provider t = FetchOutcome.ok r) := by
  refine ⟨?_, ?_, ?_, ?_, ?_⟩
  · apply fetch_foldl_not_mem
    · intro rec hc
      rcases hfail with h | h <;> rw [hc] at h <;> cases h
    · simp
  · intro he hs
    exact List.mem_cons_of_mem _
      (List.mem_filterMap.mpr ⟨s, hs, by simp [he]⟩)
  · intro he hs
    exact List.mem_cons_of_mem _
      (List.mem_filterMap.mpr ⟨s, hs, by simp [he]⟩)
  · intro provider2 hpp t ht
    exact fetch_foldl_lookup_congr provider provider2 s hpp symbols [] []
      (fun _ _ => rfl) t ht
  · intro t r hmem
    rcases fetch_foldl_mem provider symbols [] t r hmem with h | h
    · cases h
    · exact h

/-- Witness for C3 at the Scenario 4 input: the provider raises for GOOGL and
returns data for AAPL; GOOGL is absent from the result, its error is logged,
and the AAPL entry is present and equal to the fetched record. -/
theorem c3_fetch_failure_isolated_witness :
    "GOOGL" ∉ (fetch_asset_data
      (fun t => if t = "GOOGL" then FetchOutcome.err
                else FetchOutcome.ok (DailyRecord.mk (some 150) (some 153)))
      ["AAPL", "GOOGL"]).map Prod.fst ∧
    LogEvent.errorFetching "GOOGL" ∈ fetch_log
      (fun t => if t = "GOOGL" then FetchOutcome.err
                else FetchOutcome.ok (DailyRecord.mk (some 150) (some 153)))
      ["AAPL", "GOOGL"] := by
  have h := c3_fetch_failure_isolated
    (fun t => if t = "GOOGL" then FetchOutcome.err
              else FetchOutcome.ok (DailyRecord.mk (some 150) (some 153)))
    ["AAPL", "GOOGL"] "GOOGL" (Or.inr rfl)
  exact ⟨h.1, h.2.2.1 rfl (by simp)⟩

/-- C4 counterexample: on an empty fetched mapping the Reporter notice about
having no performance data to display is never emitted, because the Analyzer
returns before invoking the Reporter. -/
theorem c4_empty_mapping_cex :
    LogEvent.noPerformanceData ∉
      calculate_performance ([] : List (String × DailyRecord)) := by
  simp [calculate_performance]

/-- C4 amended: when the fetched mapping is empty it is the Analyzer, not the
Reporter, that emits the single notice; it logs the no-data warning and
returns without invoking the Reporter, so no per-symbol output is produced
and the call completes. The Reporter emits its own no-performance-data notice
only when it is invoked with an empty summary. -/
theorem c4_empty_mapping :
    calculate_performance ([] : List (String × DailyRecord))
      = [LogEvent.noDataToCalculate] ∧
    LogEvent.noDataToCalculate.level = LogLevel.warning ∧
    display_performance ([] : List (String × PerformanceResult))
      = [LogEvent.noPerformanceData] ∧
    LogEvent.noPerformanceData.level = LogLevel.info :=
  ⟨rfl, rfl, rfl, rfl⟩

/-- C5: the Analyzer is idempotent and deterministic. It reads and writes no
tracker state, so running calculate_performance a second time on the state
and data left by a first run emits the identical trace and builds the
identical performance summary, entry for entry. -/
theorem c5_idempotent (self : SmartAssetTracker)
    (data : List (String × DailyRecord)) :
    (calculate_performance_proc (calculate_performance_proc self data).1
        (calculate_performance_proc self data).2.1).2.2
      = (calculate_performance_proc self data).2.2 ∧
    performance_summary ((calculate_performance_proc self data).2.1)
      = performance_summary data :=
  ⟨rfl, rfl⟩

/-- C6: division by zero is unreachable in the Analyzer. Every record with a
missing or zero Open or Close is skipped with a logged warning and produces
no result, and every result the Analyzer does build has a nonzero open price
as the divisor of its change computation. -/
theorem c6_division_by_zero_unreachable (data : List (String × DailyRecord))
    (s : String) (stats : DailyRecord)
    (hnd : (data.map Prod.fst).Nodup)
    (hmem : (s, stats) ∈ data)
    (hbad : stats.Open = none ∨ stats.Open = some 0 ∨
            stats.Close = none ∨ stats.Close = some 0) :
    LogEvent.invalidData s ∈ calculate_performance data ∧
    (∀ r : PerformanceResult, (s, r) ∉ performance_summary data) ∧
    (∀ t r, (t, r) ∈ performance_summary data →
      r.openPrice ≠ 0 ∧
      r.changePct = ((r.closePrice - r.openPrice) / r.openPrice) * 100) := by
  have hentry : calculate_entry stats = none :=
    calculate_entry_eq_none stats hbad
  refine ⟨?_, ?_, ?_⟩
  · have hne : data.isEmpty = false := by
      cases data with
      | nil => cases hmem
      | cons hd tl => rfl
    have hwarn : LogEvent.invalidData s ∈ analysis_warnings data :=
      List.mem_filterMap.mpr ⟨(s, stats), hmem, by simp [hentry]⟩
    simp only [calculate_performance, hne, Bool.false_eq_true, if_false]
    exact List.mem_cons_of_mem _ (List.mem_append.mpr (Or.inl hwarn))
  · intro r hr
    rw [performance_summary_eq_filterMap data hnd] at hr
    rcases List.mem_filterMap.mp hr with ⟨⟨a, b⟩, hp, hpe⟩
    cases he : calculate_entry b with
    | none => rw [he] at hpe; cases hpe
    | some result =>
        rw [he] at hpe
        simp only [Option.map_some', Option.some.injEq, Prod.mk.injEq] at hpe
        obtain ⟨has, hres⟩ := hpe
        have hb : b = stats := eq_of_mem_of_nodup_keys hnd (has ▸ hp) hmem
        rw [hb, hentry] at he
        cases he
  · intro t r hr
    rw [performance_summary_eq_filterMap data hnd] at hr
    rcases List.mem_filterMap.mp hr with ⟨⟨a, b⟩, hp, hpe⟩
    cases he : calculate_entry b with
    | none => rw [he] at hpe; cases hpe
    | some result =>
        rw [he] at hpe
        simp only [Option.map_some', Option.some.injEq, Prod.mk.injEq] at hpe
        obtain ⟨has, hres⟩ := hpe
        rcases (calculate_entry_eq_some b result).mp he with
          ⟨o, c, ho, hc, ho0, hc0, hrr⟩
        rw [← hres, hrr]
        exact ⟨ho0, rfl⟩

/-- Witness for C6 at the Scenario 2 input: TSLA has a zero open, so the
Analyzer logs the invalid-data warning for TSLA. -/
theorem c6_division_by_zero_unreachable_witness :
    LogEvent.invalidData "TSLA" ∈
      calculate_performance [("TSLA", DailyRecord.mk (some 0) (some 200))] :=
  (c6_division_by_zero_unreachable
    [("TSLA", DailyRecord.mk (some 0) (some 200))] "TSLA"
    (DailyRecord.mk (some 0) (some 200))
    (by simp) (by simp) (Or.inr (Or.inl rfl))).1

/-- C7: every execution of the driver loop that is interrupted by a
KeyboardInterrupt after any number of complete ticks ends in the
stopped-by-user state, its last log line is the tracking-stopped notice at
info level, and the process exits cleanly with exit code 0. -/
theorem c7_interrupt_clean_exit (symbols : List String)
    (pre post : List TickOutcome)
    (h : ∀ o ∈ pre, ∃ q, o = TickOutcome.tick q) :
    run_loop (pre ++ TickOutcome.interrupt :: post)
      = StopState.stoppedByUser ∧
    (track_assets symbols (pre ++ TickOutcome.interrupt :: post)).getLast?
      = some LogEvent.trackingStopped ∧
    LogEvent.trackingStopped.level = LogLevel.info ∧
    exit_code (run_loop (pre ++ TickOutcome.interrupt :: post)) = some 0 := by
  have hrl : run_loop (pre ++ TickOutcome.interrupt :: post)
      = StopState.stoppedByUser := by
    rw [run_loop_append_ticks pre _ h]
    rfl
  refine ⟨hrl, ?_, rfl, by rw [hrl]; rfl⟩
  obtain ⟨es, hes⟩ := loop_trace_append_ticks symbols pre
    (TickOutcome.interrupt :: post) h
  unfold track_assets
  rw [hes]
  have h2 : loop_trace symbols (TickOutcome.interrupt :: post)
      = [LogEvent.trackingStopped] := rfl
  rw [h2]
  rw [show LogEvent.startingTracking :: (es ++ [LogEvent.trackingStopped])
      = (LogEvent.startingTracking :: es) ++ [LogEvent.trackingStopped]
      from rfl]
  exact List.getLast?_concat _

/-- Witness for C7: one complete tick against an all-empty provider, then a
KeyboardInterrupt. -/
theorem c7_interrupt_clean_exit_witness :
    run_loop ([TickOutcome.tick (fun _ => FetchOutcome.empty)]
        ++ TickOutcome.interrupt :: []) = StopState.stoppedByUser ∧
    (track_assets ["AAPL"] ([TickOutcome.tick (fun _ => FetchOutcome.empty)]
        ++ TickOutcome.interrupt :: [])).getLast?
      = some LogEvent.trackingStopped ∧
    LogEvent.trackingStopped.level = LogLevel.info ∧
    exit_code (run_loop ([TickOutcome.tick (fun _ => FetchOutcome.empty)]
        ++ TickOutcome.interrupt :: [])) = some 0 :=
  c7_interrupt_clean_exit ["AAPL"]
    [TickOutcome.tick (fun _ => FetchOutcome.empty)] []
    (by
      intro o ho
      simp only [List.mem_singleton] at ho
      exact ⟨_, ho⟩)

/-- C8 counterexample: when an exception escapes the first tick, the loop
stops in the stopped-by-error state, but the exception is caught by the
generic handler: the last log line is at error severity, not a fatal one, and
the process exits with status 0, not a nonzero status. -/
theorem c8_tick_exception_cex :
    run_loop [TickOutcome.fail] = StopState.stoppedByError ∧
    exit_code (run_loop [TickOutcome.fail]) = some 0 ∧
    (track_assets ["AAPL"] [TickOutcome.fail]).getLast?
      = some LogEvent.unexpectedError ∧
    LogEvent.unexpectedError.level = LogLevel.error ∧
    LogEvent.unexpectedError.level ≠ LogLevel.critical :=
  ⟨rfl, rfl, rfl, rfl, by decide⟩

/-- C8 amended: an exception escaping the top level of a tick is caught by
the generic handler of track_assets, which logs it at error (not fatal)
severity as the last log line; the loop terminates with no further tick
running; and the process then exits normally with exit code 0, because the
handler swallows the exception and the script ends. -/
theorem c8_tick_exception (symbols : List String)
    (pre post : List TickOutcome)
    (h : ∀ o ∈ pre, ∃ q, o = TickOutcome.tick q) :
    run_loop (pre ++ TickOutcome.fail :: post)
      = StopState.stoppedByError ∧
    (track_assets symbols (pre ++ TickOutcome.fail :: post)).getLast?
      = some LogEvent.unexpectedError ∧
    LogEvent.unexpectedError.level = LogLevel.error ∧
    ticks_run (pre ++ TickOutcome.fail :: post) = pre.length ∧
    exit_code (run_loop (pre ++ TickOutcome.fail :: post)) = some 0 := by
  have hrl : run_loop (pre ++ TickOutcome.fail :: post)
      = StopState.stoppedByError := by
    rw [run_loop_append_ticks pre _ h]
    rfl
  have htr : ticks_run (pre ++ TickOutcome.fail :: post) = pre.length := by
    rw [ticks_run_append_ticks pre _ h]
    rfl
  refine ⟨hrl, ?_, rfl, htr, by rw [hrl]; rfl⟩
  obtain ⟨es, hes⟩ := loop_trace_append_ticks symbols pre
    (TickOutcome.fail :: post) h
  unfold track_assets
  rw [hes]
  have h2 : loop_trace symbols (TickOutcome.fail :: post)
      = [LogEvent.unexpectedError] := rfl
  rw [h2]
  rw [show LogEvent.startingTracking :: (es ++ [LogEvent.unexpectedError])
      = (LogEvent.startingTracking :: es) ++ [LogEvent.unexpectedError]
      from rfl]
  exact List.getLast?_concat _

/-- Witness for the amended C8: one complete tick against an all-empty
provider, then an escaping exception. -/
theorem c8_tick_exception_witness :
    run_loop ([TickOutcome.tick (fun _ => FetchOutcome.empty)]
        ++ TickOutcome.fail :: []) = StopState.stoppedByError ∧
    (track_assets ["AAPL"] ([TickOutcome.tick (fun _ => FetchOutcome.empty)]
        ++ TickOutcome.fail :: [])).getLast?
      = some LogEvent.unexpectedError ∧
    LogEvent.unexpectedError.level = LogLevel.error ∧
    ticks_run ([TickOutcome.tick (fun _ => FetchOutcome.empty)]
        ++ TickOutcome.fail :: []) = 1 ∧
    exit_code (run_loop ([TickOutcome.tick (fun _ => FetchOutcome.empty)]
        ++ TickOutcome.fail :: [])) = some 0 :=
  c8_tick_exception ["AAPL"]
    [TickOutcome.tick (fun _ => FetchOutcome.empty)] []
    (by
      intro o ho
      simp only [List.mem_singleton] at ho
      exact ⟨_, ho⟩)

/-- C9: the Analyzer and the Reporter mutate nothing. Run as state-passing
procedures they return the tracker (hence its symbol list) and their data
argument unchanged, producing only the log trace. -/
theorem c9_frame (self : SmartAssetTracker)
    (data : List (String × DailyRecord))
    (summary : List (String × PerformanceResult)) :
    (calculate_performance_proc self data).1 = self ∧
    (calculate_performance_proc self data).2.1 = data ∧
    (calculate_performance_proc self data).1.symbols = self.symbols ∧
    (display_performance_proc self summary).1 = self ∧
    (display_performance_proc self summary).2.1 = summary :=
  ⟨rfl, rfl, rfl, rfl, rfl⟩

/-- C10: the symbols of the performance summary are a subset of the keys of
the fetched data, the keys of the dict returned by the Fetcher all come from
the configured symbol list, and each key occurs at most once in that dict. -/
theorem c10_key_invariants (data : List (String × DailyRecord))
    (provider : String → FetchOutcome) (symbols : List String) :
    (∀ s, s ∈ (performance_summary data).map Prod.fst →
      s ∈ data.map Prod.fst) ∧
    (∀ s, s ∈ (fetch_asset_data provider symbols).map Prod.fst →
      s ∈ symbols) ∧
    ((fetch_asset_data provider symbols).map Prod.fst).Nodup := by
  refine ⟨?_, ?_, ?_⟩
  · intro s hs
    rcases summary_foldl_keys_subset data [] s hs with h | h
    · simp at h
    · exact h
  · intro s hs
    rcases fetch_foldl_keys provider symbols [] s hs with h | h
    · simp at h
    · exact h
  · exact fetch_foldl_nodup provider symbols [] (by simp)

/-- Witness for C10: a one-symbol summary over Scenario 1 data and a fetch of
two symbols against an all-ok provider. -/
theorem c10_key_invariants_witness :
    "AAPL" ∈ ([("AAPL", DailyRecord.mk (some 150) (some 153))].map
      Prod.fst) ∧
    ((fetch_asset_data
        (fun _ => FetchOutcome.ok (DailyRecord.mk (some 150) (some 153)))
        ["AAPL", "GOOGL"]).map Prod.fst).Nodup := by
  have h := c10_key_invariants
    [("AAPL", DailyRecord.mk (some 150) (some 153))]
    (fun _ => FetchOutcome.ok (DailyRecord.mk (some 150) (some 153)))
    ["AAPL", "GOOGL"]
  refine ⟨h.1 "AAPL" ?_, h.2.2⟩
  simp [performance_summary, calculate_entry, dictInsert]
